import Mathlib

/-!
Shallow embedding of `examples/sysir/frontend.janet`, the sysir language
frontend: a compiler from a small Lisp-like surface language to a flat typed
IR, together with proofs about it.

Modelling conventions:
* The Janet code appends instructions to a mutable array `into`; every emitted
  instruction is an `array/push`, and the buffer is never read or truncated
  during compilation.  The embedding therefore returns the list of
  instructions a compilation step pushes (in push order) alongside its result,
  and callers concatenate these lists in the order of the pushes.
* The mutable globals `slot-to-name` (array) and `name-to-slot` (table), the
  `gensym` label source and the `*ret-type*` dynamic binding form the state
  `St`, threaded explicitly.  `name-to-slot` is an association list where a
  `put` conses a new entry that shadows older ones, matching table update.
* Janet numbers, strings, booleans and symbols become the `Form` constructors;
  paren tuples and bracket tuples are `tup false` / `tup true` (the compiler
  only accepts paren tuples).  Type positions (after `the`, and after the `:`
  in `name:type` symbols) are type symbols, modelled as strings.
* `gensym` produces globally unique symbols; labels are modelled as the values
  of a strictly increasing counter.
* Each `case` arm of `visit1` that spans several lines is embedded as its own
  definition (`doThe`, `doDefVar`, `doSet`, `doReturn`, `doDo`, `doWhile`,
  `doIf`, `doCallLike`), taking the recursive compiler as a function argument
  exactly as the forward-declared `do-binop`/`do-comp` helpers do in the
  source; `visit1` dispatches to them.
* Failures (`assert`, `assertf`, `errorf`) become `Except.error`; the source's
  unbounded recursion is modelled with a fuel parameter (`CErr.noFuel` never
  occurs for sufficient fuel, and theorems quantify over or supply the fuel).
-/

set_option maxHeartbeats 1000000

namespace SysirFrontend

/-- Literal values carried by inline typed constants. -/
inductive Value
  | int (n : Int)
  | str (s : String)
  | bool (b : Bool)
deriving Repr, DecidableEq

/-- An inline typed constant, the tuple `(type value)` produced for literals. -/
structure Const where
  ty : String
  val : Value
deriving Repr, DecidableEq

/-- The result of compiling one form: a slot index, an inline typed constant,
or Janet `nil` (for result-less forms such as `while` and `return`). -/
inductive Operand
  | slot (i : Nat)
  | const (c : Const)
  | none
deriving Repr, DecidableEq

/-- Janet truthiness of a compile result: `nil` is falsy; slot indices are
numbers and constants are tuples, both always truthy in Janet (including `0`
and the tuple `(boolean false)`). -/
def Operand.truthy : Operand → Bool
  | .none => false
  | _ => true

/-- A surface form (a Janet value handed to the compiler).  `tup bracket
elems` is a tuple; `bracket` records whether it is a square-bracket tuple
(`tuple/type` would be `:brackets` rather than `:parens`). -/
inductive Form
  | num (n : Int)
  | str (s : String)
  | bool (b : Bool)
  | sym (s : String)
  | tup (bracket : Bool) (elems : List Form)
deriving Repr

/-- One emitted IR instruction: one Janet tuple (or bare label keyword) pushed
into the `into` buffer. -/
inductive Instr
  | linkName (name : String)
  | parameterCount (n : Nat)
  | bind (dst : Operand) (ty : Option String)
  | move (dst : Nat) (src : Operand)
  | op3 (opcode : String) (dst lhs rhs : Operand)
  | branch (cond : Operand) (target : Nat)
  | branchNot (cond : Operand) (target : Nat)
  | jump (target : Nat)
  | label (l : Nat)
  | ret0
  | ret1 (v : Operand)
  | syscallI (dst : Option Nat) (args : List Operand)
  | callI (dst : Option Nat) (callee : Form) (args : List Operand)
  | raw (f : Form)
deriving Repr

/-- Compilation failure: a failed `assert`, the `assertf` type mismatch in the
`the` form, `errorf "cannot compile"`, the top-level `errorf "unknown form"`,
or fuel exhaustion (an artifact of the embedding; the source recursion is
unbounded). -/
inductive CErr
  | assertFail
  | typeMismatch (got expected : String)
  | cannotCompile
  | unknownForm
  | noFuel
deriving Repr, DecidableEq

/-- Compiler state: the two name registries, the `gensym` counter and the
`*ret-type*` dynamic binding. -/
structure St where
  slotToName : List (Option String)
  nameToSlot : List (String × Nat)
  gensymCtr : Nat
  retType : Option String
deriving Repr

/-- Janet table `put`: the new entry shadows any earlier one for the key. -/
def tablePut (t : List (String × Nat)) (k : String) (v : Nat) :
    List (String × Nat) :=
  (k, v) :: t

/-- Janet table `get`. -/
def tableGet : List (String × Nat) → String → Option Nat
  | [], _ => none
  | (k2, v) :: rest, k => if k2 = k then some v else tableGet rest k

/-- `get-slot`: push the (optional) new name onto `slot-to-name`, register a
named slot in `name-to-slot`, and return the fresh index (the old length). -/
def getSlot (newName : Option String) (s : St) : Nat × St :=
  let next := s.slotToName.length
  (next,
   { s with
     slotToName := s.slotToName ++ [newName]
     nameToSlot :=
       match newName with
       | some n => tablePut s.nameToSlot n next
       | none => s.nameToSlot })

/-- `(keyword (gensym))`: a fresh label, modelled by a global counter. -/
def gensym (s : St) : Nat × St :=
  (s.gensymCtr, { s with gensymCtr := s.gensymCtr + 1 })

/-- Split a character list at the first colon, if any. -/
def breakColon : List Char → Option (List Char × List Char)
  | [] => Option.none
  | c :: rest =>
    if c = ':' then some ([], rest)
    else
      match breakColon rest with
      | some (a, b) => some (c :: a, b)
      | Option.none => Option.none

/-- `type-extract`: split a `name:type` symbol at the first colon
(`string/split` with limit 2 keeps everything after the first separator in
the second part); a missing type part falls back to the default. -/
def typeExtract (combined : String) (dflt : String) : String × String :=
  match breakColon combined.toList with
  | some (n, tp) => (⟨n⟩, ⟨tp⟩)
  | Option.none => (combined, dflt)

/-- Split a list into its leading part and last element
(`(slice args 0 -2)` and `(last args)`). -/
def splitLast : List Form → Option (List Form × Form)
  | [] => Option.none
  | [a] => some ([], a)
  | a :: b :: rest =>
    match splitLast (b :: rest) with
    | some (init, lastF) => some (a :: init, lastF)
    | Option.none => Option.none

/-- The type of the expression compiler as passed to the helper definitions
(the source reaches `visit1` from its helpers through the forward-declared
`(var do-binop nil)` / `varfn` indirection; arguments are the form, the
`no-return` flag and the type hint). -/
abbrev VisitorF := Form → Bool → Option String → St →
  Except CErr (Operand × List Instr × St)

/-- `(each form ... (visit1 form into true))`: compile a sequence of forms
with results discarded, concatenating their emitted instructions. -/
def visitSeq (visit : VisitorF) : List Form → St → Except CErr (List Instr × St)
  | [], s => .ok ([], s)
  | a :: rest, s =>
    match visit a true Option.none s with
    | .error e => .error e
    | .ok (_, c1, s1) =>
      match visitSeq visit rest s1 with
      | .error e => .error e
      | .ok (c2, s2) => .ok (c1 ++ c2, s2)

/-- The argument loop of `syscall`/function calls: compile each argument
(`(visit1 arg into)`) and collect the resulting operands. -/
def visitArgs (visit : VisitorF) :
    List Form → St → Except CErr (List Operand × List Instr × St)
  | [], s => .ok ([], [], s)
  | a :: rest, s =>
    match visit a false Option.none s with
    | .error e => .error e
    | .ok (o, c1, s1) =>
      match visitArgs visit rest s1 with
      | .error e => .error e
      | .ok (os, c2, s2) => .ok (o :: os, c1 ++ c2, s2)

/-- The fold loop of `do-binop`: `final` is the accumulator (`nil` before the
first argument).  Each argument is compiled with the caller's type hint; for
each argument after the first, a fresh slot is allocated, bound to `int`, and
the binary instruction `(opcode result final right)` is emitted; the fresh
slot becomes the new accumulator.  The trailing `(assert final)` fails for an
empty argument list. -/
def doBinopGo (visit : VisitorF) (opcode : String) (typeHint : Option String) :
    List Form → Operand → St → Except CErr (Operand × List Instr × St)
  | [], final, s =>
    if final.truthy then .ok (final, [], s) else .error .assertFail
  | a :: rest, final, s =>
    match visit a false typeHint s with
    | .error e => .error e
    | .ok (right, c1, s1) =>
      if final.truthy then
        let p := getSlot Option.none s1
        let result := p.1
        let step : List Instr :=
          [.bind (.slot result) (some "int"),
           .op3 opcode (.slot result) final right]
        match doBinopGo visit opcode typeHint rest (.slot result) p.2 with
        | .error e => .error e
        | .ok (fin, c2, s3) => .ok (fin, c1 ++ step ++ c2, s3)
      else
        match doBinopGo visit opcode typeHint rest right s1 with
        | .error e => .error e
        | .ok (fin, c2, s3) => .ok (fin, c1 ++ c2, s3)

/-- `do-binop`: the n-ary arithmetic fold, starting from a `nil`
accumulator. -/
def doBinop (visit : VisitorF) (opcode : String) (args : List Form)
    (typeHint : Option String) (s : St) :
    Except CErr (Operand × List Instr × St) :=
  doBinopGo visit opcode typeHint args .none s

/-- The comparison loop of `do-comp`: `left` carries the previous operand
(`nil` before the first); while `left` is `nil` nothing is emitted.  The
first pairwise comparison writes into the result slot; each subsequent one
writes into `tempOp` and is then ANDed into the result slot. -/
def doCompGo (visit : VisitorF) (opcode : String) (resultSlot : Nat)
    (tempOp : Operand) :
    List Form → Operand → Bool → St → Except CErr (List Instr × St)
  | [], _, _, s => .ok ([], s)
  | a :: rest, left, firstCompare, s =>
    match visit a false Option.none s with
    | .error e => .error e
    | .ok (right, c1, s1) =>
      let cmp : List Instr :=
        if left.truthy then
          if firstCompare then
            [.op3 opcode (.slot resultSlot) left right]
          else
            [.op3 opcode tempOp left right,
             .op3 "and" (.slot resultSlot) tempOp (.slot resultSlot)]
        else []
      let fc := if left.truthy then false else firstCompare
      match doCompGo visit opcode resultSlot tempOp rest right fc s1 with
      | .error e => .error e
      | .ok (c2, s2) => .ok (c1 ++ cmp ++ c2, s2)

/-- `do-comp`: allocate the boolean result slot; allocate the temporary slot
exactly when `(> 2 (length args))` holds, i.e. when there are FEWER than two
operands (the source guard as written); bind the allocated slots to
`boolean`; then run the comparison loop.  Returns the result slot. -/
def doComp (visit : VisitorF) (opcode : String) (args : List Form) (s : St) :
    Except CErr (Operand × List Instr × St) :=
  let p := getSlot Option.none s
  let result := p.1
  let needsTemp : Bool := decide (2 > args.length)
  let q : Option Nat × St :=
    if needsTemp then
      let q0 := getSlot Option.none p.2
      (some q0.1, q0.2)
    else (Option.none, p.2)
  let tempOp : Operand :=
    match q.1 with
    | some t => .slot t
    | Option.none => .none
  let binds : List Instr :=
    .bind (.slot result) (some "boolean") ::
      (match q.1 with
       | some t => [.bind (.slot t) (some "boolean")]
       | Option.none => [])
  match doCompGo visit opcode result tempOp args .none true q.2 with
  | .error e => .error e
  | .ok (c, s2) => .ok (.slot result, binds ++ c, s2)

/-- The `the` arm of `visit1`: compile the expression with the requested type
as hint; a constant result must carry exactly the requested type (`assertf`,
the type mismatch error) and is re-tagged; any other result `r` gets a
`bind(r, type)` emitted and is returned unchanged. -/
def doThe (visit : VisitorF) (args : List Form) (s : St) :
    Except CErr (Operand × List Instr × St) :=
  match args with
  | [xt, x] =>
    (match xt with
     | .sym xtype =>
       (match visit x false (some xtype) s with
        | .error e => .error e
        | .ok (result, c1, s1) =>
          match result with
          | .const cst =>
            if cst.ty = xtype then .ok (.const ⟨xtype, cst.val⟩, c1, s1)
            else .error (.typeMismatch cst.ty xtype)
          | r => .ok (r, c1 ++ [.bind r (some xtype)], s1))
     | _ => .error .cannotCompile)
  | _ => .error .assertFail

/-- The `def` and `var` arms of `visit1` (their source bodies are
identical): split the `name:type` symbol (type defaults to `int`), compile
the initializer with the declared type as hint, allocate a slot under the
bare name, and emit its `bind` followed by a `move` of the initializer. -/
def doDefVar (visit : VisitorF) (args : List Form) (s : St) :
    Except CErr (Operand × List Instr × St) :=
  match args with
  | [fullName, value] =>
    (match fullName with
     | .sym fn =>
       let nt := typeExtract fn "int"
       (match visit value false (some nt.2) s with
        | .error e => .error e
        | .ok (result, c1, s1) =>
          let p := getSlot (some nt.1) s1
          .ok (.slot p.1,
               c1 ++ [.bind (.slot p.1) (some nt.2), .move p.1 result],
               p.2))
     | _ => .error .assertFail)
  | _ => .error .assertFail

/-- The `set` arm of `visit1`: compile the right-hand side, resolve the
target with `named-slot` (whose `assert` fails for an unbound name), emit a
`move`. -/
def doSet (visit : VisitorF) (args : List Form) (s : St) :
    Except CErr (Operand × List Instr × St) :=
  match args with
  | [toF, x] =>
    (match visit x false Option.none s with
     | .error e => .error e
     | .ok (result, c1, s1) =>
       match toF with
       | .sym toName =>
         (match tableGet s1.nameToSlot toName with
          | some toslot => .ok (.slot toslot, c1 ++ [.move toslot result], s1)
          | Option.none => .error .assertFail)
       | _ => .error .assertFail)
  | _ => .error .assertFail

/-- The `return` arm of `visit1`: at most one argument; the argument is
compiled with the `*ret-type*` dynamic binding as hint.  Yields `nil`. -/
def doReturn (visit : VisitorF) (args : List Form) (s : St) :
    Except CErr (Operand × List Instr × St) :=
  match args with
  | [] => .ok (.none, [.ret0], s)
  | [x] =>
    (match visit x false s.retType s with
     | .error e => .error e
     | .ok (v, c1, s1) => .ok (.none, c1 ++ [.ret1 v], s1))
  | _ => .error .assertFail

/-- The `do` arm of `visit1`: all but the last form compiled with results
discarded, the last with the caller's type hint.  With no forms at all,
`(last args)` is `nil`, which `visit1` cannot compile. -/
def doDo (visit : VisitorF) (typeHint : Option String) (args : List Form)
    (s : St) : Except CErr (Operand × List Instr × St) :=
  match splitLast args with
  | Option.none => .error .cannotCompile
  | some (init, lastF) =>
    (match visitSeq visit init s with
     | .error e => .error e
     | .ok (c1, s1) =>
       match visit lastF false typeHint s1 with
       | .error e => .error e
       | .ok (v, c2, s2) => .ok (v, c1 ++ c2, s2))

/-- The `while` arm of `visit1`: two fresh labels, then the
`(assert (< 1 (length args)))` arity check; emits the test label, the
condition (with a boolean hint), `branch-not` to the exit label, the body
forms with results discarded, a `jump` back to the test label, and the exit
label.  Yields `nil`. -/
def doWhile (visit : VisitorF) (args : List Form) (s : St) :
    Except CErr (Operand × List Instr × St) :=
  let l1 := gensym s
  let l2 := gensym l1.2
  let labTest := l1.1
  let labExit := l2.1
  match args with
  | [] => .error .assertFail
  | cnd :: body =>
    if body.isEmpty then .error .assertFail
    else
      match visit cnd false (some "boolean") l2.2 with
      | .error e => .error e
      | .ok (condSlot, c1, s1) =>
        match visitSeq visit body s1 with
        | .error e => .error e
        | .ok (c2, s2) =>
          .ok (.none,
               .label labTest :: c1
                 ++ [.branchNot condSlot labExit]
                 ++ c2 ++ [.jump labTest, .label labExit],
               s2)

/-- The `if` arm of `visit1`: two fresh labels, then the
`(assert (< 2 (length args) 4))` arity check; compiles the condition with a
boolean hint, allocates the result slot, emits `bind(result, type-hint)` and
`branch(cond, lab)`, then the first arm / `move` / `jump` / `label lab`, then
the second arm / `move` / `label lab-end`.  Returns the result slot. -/
def doIf (visit : VisitorF) (typeHint : Option String) (args : List Form)
    (s : St) : Except CErr (Operand × List Instr × St) :=
  let l1 := gensym s
  let l2 := gensym l1.2
  let lab := l1.1
  let labEnd := l2.1
  match args with
  | [cnd, tru, fal] =>
    (match visit cnd false (some "boolean") l2.2 with
     | .error e => .error e
     | .ok (condSlot, c1, s1) =>
       let p := getSlot Option.none s1
       let ret := p.1
       match visit tru false typeHint p.2 with
       | .error e => .error e
       | .ok (v1, c2, s2) =>
         match visit fal false typeHint s2 with
         | .error e => .error e
         | .ok (v2, c3, s3) =>
           .ok (.slot ret,
                c1 ++ [.bind (.slot ret) typeHint, .branch condSlot lab]
                   ++ c2 ++ [.move ret v1, .jump labEnd, .label lab]
                   ++ c3 ++ [.move ret v2, .label labEnd],
                s3))
  | _ => .error .assertFail

/-- The `syscall` arm and the function-call fallback of `visit1`: a result
slot is allocated first unless the caller discards the result, then each
argument is compiled; one `syscall`/`call` instruction is emitted.  `callee`
is `none` for `syscall` and `some op` for a call to `op`. -/
def doCallLike (visit : VisitorF) (noReturn : Bool) (callee : Option Form)
    (args : List Form) (s : St) : Except CErr (Operand × List Instr × St) :=
  let pr : Option Nat × St :=
    if noReturn then (Option.none, s)
    else
      let p := getSlot Option.none s
      (some p.1, p.2)
  match visitArgs visit args pr.2 with
  | .error e => .error e
  | .ok (os, c1, s1) =>
    let instr : Instr :=
      match callee with
      | some op => .callI pr.1 op os
      | Option.none => .syscallI pr.1 os
    .ok ((match pr.1 with | some r => .slot r | Option.none => .none),
         c1 ++ [instr], s1)

/-- The `case op` dispatch of `visit1` for a symbol head (an equality chain
on the head symbol, as Janet `case` is). -/
def dispatchOp (visit : VisitorF) (str : String) (args : List Form)
    (noReturn : Bool) (typeHint : Option String) (s : St) :
    Except CErr (Operand × List Instr × St) :=
  -- Arithmetic
  if str = "+" then doBinop visit "add" args typeHint s
  else if str = "-" then doBinop visit "subtract" args typeHint s
  else if str = "*" then doBinop visit "multiply" args typeHint s
  else if str = "/" then doBinop visit "divide" args typeHint s
  else if str = "<<" then doBinop visit "shl" args typeHint s
  else if str = ">>" then doBinop visit "shr" args typeHint s
  -- Comparison
  else if str = "=" then doComp visit "eq" args s
  else if str = "not=" then doComp visit "neq" args s
  else if str = "<" then doComp visit "lt" args s
  else if str = "<=" then doComp visit "lte" args s
  else if str = ">" then doComp visit "gt" args s
  else if str = ">=" then doComp visit "gte" args s
  -- Type hinting
  else if str = "the" then doThe visit args s
  -- Named bindings and named variables: identical lowering
  else if str = "def" then doDefVar visit args s
  else if str = "var" then doDefVar visit args s
  -- Assignment
  else if str = "set" then doSet visit args s
  -- Return
  else if str = "return" then doReturn visit args s
  -- Sequence of operations
  else if str = "do" then doDo visit typeHint args s
  -- While loop
  else if str = "while" then doWhile visit args s
  -- Branch
  else if str = "if" then doIf visit typeHint args s
  -- Insert IR
  else if str = "ir" then .ok (.none, args.map Instr.raw, s)
  -- Syscall
  else if str = "syscall" then doCallLike visit noReturn Option.none args s
  -- Assume function call
  else doCallLike visit noReturn (some (.sym str)) args s

/-- `visit1`: compile one form, returning its result operand and the emitted
instructions.  `noReturn` is the discard flag, `typeHint` the optional type
hint.  The first argument is recursion fuel (the source recursion is
unbounded); tuple heads are dispatched through `dispatchOp` exactly as the
source `case`. -/
def visit1 : Nat → Form → Bool → Option String → St →
    Except CErr (Operand × List Instr × St)
  | 0, _, _, _, _ => .error .noFuel
  | fuel + 1, code, noReturn, typeHint, s =>
    match code with
    -- Compile a constant
    | .str v => .ok (.const ⟨"pointer", .str v⟩, [], s)
    | .bool b => .ok (.const ⟨"boolean", .bool b⟩, [], s)
    | .num n => .ok (.const ⟨typeHint.getD "long", .int n⟩, [], s)
    -- Binding: `(named-slot code)`, with its assert on a missing name
    | .sym name =>
      (match tableGet s.nameToSlot name with
       | some i => .ok (.slot i, [], s)
       | Option.none => .error .assertFail)
    -- Only :parens tuples are compiled; everything else cannot compile
    | .tup true _ => .error .cannotCompile
    | .tup false [] => .error .assertFail
    | .tup false (op :: args) =>
      match op with
      | .sym str => dispatchOp (visit1 fuel) str args noReturn typeHint s
      -- a non-symbol head falls to the function-call default
      | _ => doCallLike (visit1 fuel) noReturn (some op) args s

/-- The parameter loop of `defn`: for each parameter symbol, split off its
declared type (default `int`), allocate a named slot and emit its `bind`. -/
def bindParams : List Form → St → Except CErr (List Instr × St)
  | [], s => .ok ([], s)
  | .sym a :: rest, s =>
    let nt := typeExtract a "int"
    let p := getSlot (some nt.1) s
    (match bindParams rest p.2 with
     | .error e => .error e
     | .ok (c, s2) => .ok (.bind (.slot p.1) (some nt.2) :: c, s2))
  | _ :: _, _ => .error .assertFail

/-- The registry reset at the start of `defn` in `top`:
`(table/clear name-to-slot)` and `(array/clear slot-to-name)`. -/
def resetRegs (s : St) : St := { s with slotToName := [], nameToSlot := [] }

/-- `top`: compile one top-level `defn` form.  Clears both name registries,
emits the link-name and parameter-count directives and the parameter binds,
sets the `*ret-type*` dynamic binding, and compiles every body form with the
result discarded.  Returns the full instruction list handed to
`sysir/asm`. -/
def top (fuel : Nat) (form : Form) (s : St) : Except CErr (List Instr × St) :=
  match form with
  | .tup _ (.sym "defn" :: rest) =>
    (match rest with
     | nameF :: argsF :: body =>
       (match nameF, argsF with
        | .sym name, .tup _ params =>
          let s0 : St := resetRegs s
          let nt := typeExtract name "int"
          let pcount := params.length
          (match bindParams params s0 with
           | .error e => .error e
           | .ok (binds, s1) =>
             let s2 : St := { s1 with retType := some nt.2 }
             match visitSeq (visit1 fuel) body s2 with
             | .error e => .error e
             | .ok (c, s3) =>
               .ok (.linkName nt.1 :: .parameterCount pcount :: binds ++ c, s3))
        | _, _ => .error .assertFail)
     | _ => .error .assertFail)
  | .tup _ _ => .error .unknownForm
  | _ => .error .assertFail

/-- The all-`nil` starting state: empty registries, label counter at zero, no
ambient return type. -/
def initSt : St := ⟨[], [], 0, Option.none⟩

/-!
Specification-side helper definitions used to state the theorems below.
-/

/-- A run of consecutive `get-slot` calls: the list of indices the calls
return, together with the final state. -/
def allocRun : List (Option String) → St → List Nat × St
  | [], s => ([], s)
  | nm :: rest, s =>
    let p := getSlot nm s
    let q := allocRun rest p.2
    (p.1 :: q.1, q.2)

/-- One state mutation performed inside function bodies.  Inspecting the
definitions above, `visit1` and its helpers change the state exclusively
through `getSlot` and `gensym`. -/
inductive RegStep : St → St → Prop
  | alloc (nm : Option String) (s : St) : RegStep s (getSlot nm s).2
  | fresh (s : St) : RegStep s (gensym s).2

/-- Reachability of one compiler state from another by `getSlot`/`gensym`
steps. -/
def RegChain : St → St → Prop := Relation.ReflTransGen RegStep

/-- The property that a visitor function only transforms the state along
`getSlot`/`gensym` steps (used for the recursive hypothesis about
`visit1`). -/
def VisitChain (visit : VisitorF) : Prop :=
  ∀ a nr th s o c s2, visit a nr th s = .ok (o, c, s2) → RegChain s s2

/-- The registry coherence that actually holds at every reachable state:
`name-to-slot` maps a name to the greatest `slot-to-name` index holding that
name (after a redeclaration, older indices still hold the name but the table
points at the newest one). -/
def RegOk (s : St) : Prop :=
  (∀ n i, tableGet s.nameToSlot n = some i →
     s.slotToName[i]? = some (some n) ∧
       ∀ j, i < j → s.slotToName[j]? ≠ some (some n)) ∧
  (∀ i n, s.slotToName[i]? = some (some n) →
     ∃ j, tableGet s.nameToSlot n = some j ∧ i ≤ j)

/-- The surface operators lowered through `do-binop`, with their opcodes. -/
def arithOps : List (String × String) :=
  [("+", "add"), ("-", "subtract"), ("*", "multiply"), ("/", "divide"),
   ("<<", "shl"), (">>", "shr")]

/-- The surface operators lowered through `do-comp`, with their opcodes. -/
def compOps : List (String × String) :=
  [("=", "eq"), ("not=", "neq"), ("<", "lt"), ("<=", "lte"),
   (">", "gt"), (">=", "gte")]

/-- The shape of the instruction stream the `do-binop` loop emits once the
accumulator is seeded, for ARBITRARY argument forms: per remaining argument,
first that argument's own (arbitrary) instruction stream `argCode`, then a
`bind` of a fresh slot to the fixed default type `int`, then exactly one
arithmetic instruction whose destination is that slot, whose LEFT operand is
the current accumulator and whose right operand is the argument's compiled
operand; the destination becomes the accumulator of the next step.  The
third index collects the (dest, lhs, rhs) triple of each step's arithmetic
instruction, one triple per folded argument. -/
inductive FoldTrace (opcode : String) :
    Operand → List Instr → List (Operand × Operand × Operand) → Operand → Prop
  | nil (acc : Operand) : FoldTrace opcode acc [] [] acc
  | step (acc : Operand) (argCode : List Instr) (dst : Nat) (right : Operand)
      (rest : List Instr) (triples : List (Operand × Operand × Operand))
      (fin : Operand) :
      FoldTrace opcode (.slot dst) rest triples fin →
      FoldTrace opcode acc
        (argCode ++ [.bind (.slot dst) (some "int"),
                     .op3 opcode (.slot dst) acc right] ++ rest)
        ((.slot dst, acc, right) :: triples) fin

/-- The parameter binds `defn` emits: one `bind` per parameter in declaration
order, slots numbered consecutively from `start`, each with the parameter's
declared type (default `int`). -/
def paramBinds (start : Nat) : List String → List Instr
  | [] => []
  | a :: rest =>
    .bind (.slot start) (some (typeExtract a "int").2)
      :: paramBinds (start + 1) rest

/-!
Theorems.
-/

/-- C1: the claim states that for a chained comparison over `k` operands a
temporary boolean slot is allocated exactly when `k > 2` and that every
intermediate comparison writes into that temporary.  The code's guard is
`(> 2 (length args))`, i.e. it allocates the temporary only when `k < 2`;
for `k = 3` this evaluation shows that only ONE slot is ever allocated
(`slot-to-name` ends as `[nil]`), no second `bind` is emitted, the
intermediate comparison's destination is Janet `nil`, and the `and`
instruction reads `nil`.  The spec's description (temporary present for
`k > 2`, intermediate comparisons writing into it) is clearly the intent,
and emitting `nil` as a destination slot is a slip: the guard is
inverted. -/
theorem c1_chained_comparison_temp_bug :
    visit1 3 (.tup false [.sym "=", .num 1, .num 2, .num 3]) false Option.none
      initSt =
      .ok (.slot 0,
        [.bind (.slot 0) (some "boolean"),
         .op3 "eq" (.slot 0) (.const ⟨"long", .int 1⟩) (.const ⟨"long", .int 2⟩),
         .op3 "eq" .none (.const ⟨"long", .int 2⟩) (.const ⟨"long", .int 3⟩),
         .op3 "and" (.slot 0) .none (.slot 0)],
        ⟨[Option.none], [], 0, Option.none⟩) := rfl

/-- C2 counterexample: for the fold `(+ 1 2 3)` the second `add` instruction
is `(add slot1 slot0 (long 3))`: its right operand is the constant `3`, not
`slot0`, the destination of the first step — refuting the claim that the
destination of step k appears as the RIGHT operand of step k+1 (it appears
as the left operand). -/
theorem c2_fold_right_operand_counterexample :
    visit1 3 (.tup false [.sym "+", .num 1, .num 2, .num 3]) false Option.none
      initSt =
      .ok (.slot 1,
        [.bind (.slot 0) (some "int"),
         .op3 "add" (.slot 0) (.const ⟨"long", .int 1⟩) (.const ⟨"long", .int 2⟩),
         .bind (.slot 1) (some "int"),
         .op3 "add" (.slot 1) (.slot 0) (.const ⟨"long", .int 3⟩)],
        ⟨[Option.none, Option.none], [], 0, Option.none⟩)
    ∧ (Operand.const ⟨"long", .int 3⟩ ≠ Operand.slot 0) :=
  ⟨rfl, by decide⟩

/-- C8: compiling `(the T e)`.  If `e` compiles to an inline constant, the
compilation succeeds re-tagging the constant (with no instruction emitted
beyond those of `e`) exactly when the constant's carried type equals `T`,
and fails with the type mismatch error otherwise; if `e` compiles to a slot,
`bind(slot, T)` is emitted and the same slot returned.  Concretely,
`(the int 5)` yields the inline constant `(int 5)` with no emitted
instruction, and `(the int "x")` fails with a pointer/int type mismatch. -/
theorem c8_the_type_assertion :
    (∀ fuel T e nr th s res c1 s1,
      visit1 fuel e false (some T) s = .ok (res, c1, s1) →
      (∀ cst, res = .const cst →
        visit1 (fuel + 1) (.tup false [.sym "the", .sym T, e]) nr th s =
          if cst.ty = T then .ok (.const ⟨T, cst.val⟩, c1, s1)
          else .error (.typeMismatch cst.ty T)) ∧
      (∀ r, res = .slot r →
        visit1 (fuel + 1) (.tup false [.sym "the", .sym T, e]) nr th s =
          .ok (.slot r, c1 ++ [.bind (.slot r) (some T)], s1)))
    ∧ visit1 2 (.tup false [.sym "the", .sym "int", .num 5]) false Option.none
        initSt = .ok (.const ⟨"int", .int 5⟩, [], initSt)
    ∧ visit1 2 (.tup false [.sym "the", .sym "int", .str "x"]) false Option.none
        initSt = .error (.typeMismatch "pointer" "int") := by
  refine ⟨?_, rfl, rfl⟩
  intro fuel T e nr th s res c1 s1 h
  constructor
  · intro cst hc
    subst hc
    have e1 : visit1 (fuel + 1) (.tup false [.sym "the", .sym T, e]) nr th s =
        doThe (visit1 fuel) [.sym T, e] s := rfl
    rw [e1]
    simp only [doThe, h]
  · intro r hr
    subst hr
    have e1 : visit1 (fuel + 1) (.tup false [.sym "the", .sym T, e]) nr th s =
        doThe (visit1 fuel) [.sym T, e] s := rfl
    rw [e1]
    simp only [doThe, h]

/-- Witness for C8: the general constant clause applied to `(the long 7)`. -/
theorem c8_the_type_assertion_witness :
    visit1 2 (.tup false [.sym "the", .sym "long", .num 7]) false Option.none
      initSt = .ok (.const ⟨"long", .int 7⟩, [], initSt) := by
  have h := (c8_the_type_assertion.1 1 "long" (.num 7) false Option.none initSt
      (.const ⟨"long", .int 7⟩) [] initSt rfl).1 ⟨"long", .int 7⟩ rfl
  simpa using h

/-- C9: a `while` form whose argument list holds only the condition fails the
`(assert (< 1 (length args)))` arity check, even though the surface grammar
suggests an empty body is allowed; with at least one body form, compilation
proceeds (given that the condition and the body forms themselves compile). -/
theorem c9_while_empty_body_fails :
    (∀ fuel (cnd : Form) nr th s,
      visit1 (fuel + 1) (.tup false [.sym "while", cnd]) nr th s =
        .error .assertFail)
    ∧ (∀ fuel (cnd b0 : Form) (bs : List Form) nr th s condSlot c1 s1 c2 s2,
        visit1 fuel cnd false (some "boolean") (gensym (gensym s).2).2 =
          .ok (condSlot, c1, s1) →
        visitSeq (visit1 fuel) (b0 :: bs) s1 = .ok (c2, s2) →
        ∃ r, visit1 (fuel + 1) (.tup false (.sym "while" :: cnd :: b0 :: bs))
            nr th s = .ok r) := by
  constructor
  · intro fuel cnd nr th s
    rfl
  · intro fuel cnd b0 bs nr th s condSlot c1 s1 c2 s2 h1 h2
    refine ⟨?_, ?_⟩
    · exact (.none,
        .label (gensym s).1 :: c1
          ++ [.branchNot condSlot (gensym (gensym s).2).1]
          ++ c2 ++ [.jump (gensym s).1, .label (gensym (gensym s).2).1], s2)
    · have e1 : visit1 (fuel + 1)
          (.tup false (.sym "while" :: cnd :: b0 :: bs)) nr th s =
          doWhile (visit1 fuel) (cnd :: b0 :: bs) s := rfl
      rw [e1]
      simp only [doWhile, List.isEmpty_cons, Bool.false_eq_true, if_false, h1, h2]

/-- Witness for C9: `(while true)` fails, while `(while true 3)` compiles. -/
theorem c9_while_empty_body_fails_witness :
    visit1 3 (.tup false [.sym "while", .bool true]) false Option.none initSt =
      .error .assertFail
    ∧ ∃ r, visit1 3 (.tup false [.sym "while", .bool true, .num 3]) false
        Option.none initSt = .ok r := by
  constructor
  · exact c9_while_empty_body_fails.1 2 (.bool true) false Option.none initSt
  · exact c9_while_empty_body_fails.2 2 (.bool true) (.num 3) [] false
      Option.none initSt (.const ⟨"boolean", .bool true⟩) [] _ [] _ rfl rfl

/-- Helper: `do-comp` on a single operand allocates and binds both the
result slot and the temporary slot, compiles the operand, emits nothing
else, and returns the result slot. -/
theorem doComp_single (visit : VisitorF) (opcode : String) (arg : Form)
    (s s2 : St) (op : Operand) (c : List Instr)
    (h : visit arg false Option.none
        (getSlot Option.none (getSlot Option.none s).2).2 = .ok (op, c, s2)) :
    doComp visit opcode [arg] s =
      .ok (.slot (getSlot Option.none s).1,
        .bind (.slot (getSlot Option.none s).1) (some "boolean")
          :: .bind (.slot (getSlot Option.none (getSlot Option.none s).2).1)
              (some "boolean")
          :: c,
        s2) := by
  simp [doComp, doCompGo, h, Operand.truthy]

/-- C10: a chained comparison applied to exactly ONE operand does not fail:
because the temporary-slot guard is `(> 2 (length args))`, both the result
slot and the temporary slot are allocated and bound to `boolean`, the single
operand is compiled, no comparison and no `and` instruction is emitted, and
the (never written) result slot is returned. -/
theorem c10_single_operand_comparison (cs opcode : String)
    (hop : (cs, opcode) ∈ compOps) (fuel : Nat) (arg : Form) (nr : Bool)
    (th : Option String) (s s2 : St) (op : Operand) (c : List Instr)
    (h : visit1 fuel arg false Option.none
        (getSlot Option.none (getSlot Option.none s).2).2 = .ok (op, c, s2)) :
    visit1 (fuel + 1) (.tup false [.sym cs, arg]) nr th s =
      .ok (.slot (getSlot Option.none s).1,
        .bind (.slot (getSlot Option.none s).1) (some "boolean")
          :: .bind (.slot (getSlot Option.none (getSlot Option.none s).2).1)
              (some "boolean")
          :: c,
        s2)
    ∧ (getSlot Option.none s).1 = s.slotToName.length
    ∧ (getSlot Option.none (getSlot Option.none s).2).1 =
        s.slotToName.length + 1 := by
  refine ⟨?_, rfl, by simp [getSlot]⟩
  simp only [compOps, List.mem_cons, List.not_mem_nil, or_false] at hop
  rcases hop with h6 | h6 | h6 | h6 | h6 | h6 <;>
    (rw [Prod.mk.injEq] at h6; obtain ⟨rfl, rfl⟩ := h6) <;>
    exact doComp_single (visit1 fuel) _ arg s s2 op c h

/-- Witness for C10: `(< 7)` compiles to two boolean binds and nothing else. -/
theorem c10_single_operand_comparison_witness :
    visit1 2 (.tup false [.sym "<", .num 7]) false Option.none initSt =
      .ok (.slot 0,
        [.bind (.slot 0) (some "boolean"), .bind (.slot 1) (some "boolean")],
        ⟨[Option.none, Option.none], [], 0, Option.none⟩) := by
  have h := (c10_single_operand_comparison "<" "lt" (by decide) 1 (.num 7)
      false Option.none initSt
      ⟨[Option.none, Option.none], [], 0, Option.none⟩
      (.const ⟨"long", .int 7⟩) [] rfl).1
  simpa using h

/-- C6: lowering of `(while cnd body...)`: the emitted sequence is the test
label, the condition's instructions (compiled with a boolean hint),
`branch-not` of the condition slot to the exit label, the body forms'
instructions (results discarded), a `jump` back to the test label, and the
exit label; the two labels are the two freshly generated values of the label
counter (hence distinct and never used before), and the compilation yields
`nil` (no result). -/
theorem c6_while_lowering (fuel : Nat) (cnd b0 : Form) (bs : List Form)
    (nr : Bool) (th : Option String) (s s1 s2 : St) (condSlot : Operand)
    (c1 c2 : List Instr)
    (h1 : visit1 fuel cnd false (some "boolean") (gensym (gensym s).2).2 =
      .ok (condSlot, c1, s1))
    (h2 : visitSeq (visit1 fuel) (b0 :: bs) s1 = .ok (c2, s2)) :
    visit1 (fuel + 1) (.tup false (.sym "while" :: cnd :: b0 :: bs)) nr th s =
      .ok (.none,
        .label (gensym s).1 :: c1
          ++ [.branchNot condSlot (gensym (gensym s).2).1]
          ++ c2 ++ [.jump (gensym s).1, .label (gensym (gensym s).2).1],
        s2)
    ∧ (gensym s).1 = s.gensymCtr
    ∧ (gensym (gensym s).2).1 = s.gensymCtr + 1 := by
  refine ⟨?_, rfl, rfl⟩
  have e1 : visit1 (fuel + 1)
      (.tup false (.sym "while" :: cnd :: b0 :: bs)) nr th s =
      doWhile (visit1 fuel) (cnd :: b0 :: bs) s := rfl
  rw [e1]
  simp only [doWhile, List.isEmpty_cons, Bool.false_eq_true, if_false, h1, h2]

/-- Witness for C6: `(while true 3)` lowers to label, branch-not, jump,
label around an empty body trace. -/
theorem c6_while_lowering_witness :
    visit1 3 (.tup false [.sym "while", .bool true, .num 3]) false Option.none
      initSt =
      .ok (.none,
        [.label 0,
         .branchNot (.const ⟨"boolean", .bool true⟩) 1,
         .jump 0, .label 1],
        ⟨[], [], 2, Option.none⟩) := by
  have h := (c6_while_lowering 2 (.bool true) (.num 3) [] false Option.none
      initSt ⟨[], [], 2, Option.none⟩ ⟨[], [], 2, Option.none⟩
      (.const ⟨"boolean", .bool true⟩) [] [] rfl rfl).1
  simpa using h

/-- C4: lowering of `(if cnd tru fal)` (exactly three arguments): the
emitted sequence is the condition's instructions (boolean hint),
`bind(result, type-hint)`, `branch(cond, lab)`, the first arm's
instructions, `move(result, v1)`, `jump(lab-end)`, `label(lab)`, the second
arm's instructions, `move(result, v2)`, `label(lab-end)`; the result slot is
returned, and the two labels are the two freshly generated values of the
label counter (hence distinct and never used before). -/
theorem c4_if_lowering (fuel : Nat) (cnd tru fal : Form) (nr : Bool)
    (th : Option String) (s s1 s2 s3 : St) (condSlot v1 v2 : Operand)
    (c1 c2 c3 : List Instr)
    (h1 : visit1 fuel cnd false (some "boolean") (gensym (gensym s).2).2 =
      .ok (condSlot, c1, s1))
    (h2 : visit1 fuel tru false th (getSlot Option.none s1).2 = .ok (v1, c2, s2))
    (h3 : visit1 fuel fal false th s2 = .ok (v2, c3, s3)) :
    visit1 (fuel + 1) (.tup false [.sym "if", cnd, tru, fal]) nr th s =
      .ok (.slot (getSlot Option.none s1).1,
        c1 ++ [.bind (.slot (getSlot Option.none s1).1) th,
               .branch condSlot (gensym s).1]
          ++ c2 ++ [.move (getSlot Option.none s1).1 v1,
                    .jump (gensym (gensym s).2).1, .label (gensym s).1]
          ++ c3 ++ [.move (getSlot Option.none s1).1 v2,
                    .label (gensym (gensym s).2).1],
        s3)
    ∧ (gensym s).1 = s.gensymCtr
    ∧ (gensym (gensym s).2).1 = s.gensymCtr + 1
    ∧ (getSlot Option.none s1).1 = s1.slotToName.length := by
  refine ⟨?_, rfl, rfl, rfl⟩
  have e1 : visit1 (fuel + 1) (.tup false [.sym "if", cnd, tru, fal]) nr th s =
      doIf (visit1 fuel) th [cnd, tru, fal] s := rfl
  rw [e1]
  simp only [doIf, h1, h2, h3]

/-- Helper: the binds emitted for an all-symbol parameter list are exactly
`paramBinds` starting at the current registry size. -/
theorem bindParams_eq_paramBinds :
    ∀ (ps : List String) (s : St) (binds : List Instr) (s1 : St),
      bindParams (ps.map Form.sym) s = .ok (binds, s1) →
      binds = paramBinds s.slotToName.length ps := by
  intro ps
  induction ps with
  | nil =>
    intro s binds s1 h
    simp only [List.map_nil, bindParams, Except.ok.injEq, Prod.mk.injEq] at h
    simp [paramBinds, ← h.1]
  | cons a rest ih =>
    intro s binds s1 h
    simp only [List.map_cons, bindParams] at h
    cases hb : bindParams (List.map Form.sym rest)
        (getSlot (some (typeExtract a "int").1) s).2 with
    | error e => rw [hb] at h; exact absurd h (by simp)
    | ok p =>
      obtain ⟨c2, s2b⟩ := p
      rw [hb] at h
      simp only [Except.ok.injEq, Prod.mk.injEq] at h
      obtain ⟨hbinds, -⟩ := h
      have hr := ih _ c2 s2b hb
      rw [← hbinds, hr, paramBinds]
      simp [getSlot]

/-- Helper: `paramBinds` length. -/
theorem paramBinds_length :
    ∀ (ps : List String) (start : Nat),
      (paramBinds start ps).length = ps.length := by
  intro ps
  induction ps with
  | nil => intro start; rfl
  | cons a rest ih => intro start; simp [paramBinds, ih]

/-- Helper: the i-th emitted parameter bind is for slot `start + i` with the
i-th parameter's declared type. -/
theorem paramBinds_getElem :
    ∀ (ps : List String) (start i : Nat),
      (paramBinds start ps)[i]? =
        (ps[i]?).map
          (fun a => Instr.bind (.slot (start + i))
            (some (typeExtract a "int").2)) := by
  intro ps
  induction ps with
  | nil => intro start i; simp [paramBinds]
  | cons a rest ih =>
    intro start i
    cases i with
    | zero => simp [paramBinds]
    | succ n =>
      simp only [paramBinds, List.getElem?_cons_succ, ih (start + 1) n]
      have e : start + 1 + n = start + (n + 1) := by omega
      rw [e]

/-- C5: a top-level `defn` with N parameters hands the backend an
instruction list that begins with the link-name directive, then a
parameter-count directive equal to N, then exactly N `bind` instructions —
one per parameter in declaration order, slot i bound to the i-th parameter's
declared type — before any instruction of the body. -/
theorem c5_defn_header_layout (fuel : Nat) (bracket bracket2 : Bool)
    (fname : String) (ps : List String) (body : List Form) (s s1 s3 : St)
    (binds c : List Instr)
    (hbp : bindParams (ps.map Form.sym) (resetRegs s) = .ok (binds, s1))
    (hbody : visitSeq (visit1 fuel) body
        { s1 with retType := some (typeExtract fname "int").2 } = .ok (c, s3)) :
    top fuel (.tup bracket (.sym "defn" :: .sym fname ::
        .tup bracket2 (ps.map Form.sym) :: body)) s =
      .ok (.linkName (typeExtract fname "int").1
            :: .parameterCount ps.length :: binds ++ c, s3)
    ∧ binds = paramBinds 0 ps
    ∧ binds.length = ps.length
    ∧ (∀ i, binds[i]? =
        (ps[i]?).map
          (fun a => Instr.bind (.slot i) (some (typeExtract a "int").2))) := by
  have hbinds := bindParams_eq_paramBinds ps (resetRegs s) binds s1 hbp
  have h0 : (resetRegs s).slotToName.length = 0 := rfl
  rw [h0] at hbinds
  refine ⟨?_, hbinds, ?_, ?_⟩
  · simp only [top, hbp, hbody]
    simp [List.length_map]
  · rw [hbinds, paramBinds_length]
  · intro i
    rw [hbinds, paramBinds_getElem]
    simp

/-- Witness for C5: `(defn f:int [x:int] (return x))` yields link-name "f",
parameter-count 1, one parameter bind, then the body. -/
theorem c5_defn_header_layout_witness :
    top 2 (.tup false [.sym "defn", .sym "f:int", .tup true [.sym "x:int"],
        .tup false [.sym "return", .sym "x"]]) initSt =
      .ok ([.linkName "f", .parameterCount 1, .bind (.slot 0) (some "int"),
            .ret1 (.slot 0)],
        ⟨[some "x"], [("x", 0)], 0, some "int"⟩) := by
  have h := (c5_defn_header_layout 2 false true "f:int" ["x:int"]
      [.tup false [.sym "return", .sym "x"]] initSt
      ⟨[some "x"], [("x", 0)], 0, Option.none⟩
      ⟨[some "x"], [("x", 0)], 0, some "int"⟩
      [.bind (.slot 0) (some "int")] [.ret1 (.slot 0)] rfl rfl).1
  simpa using h

/-- Witness for C4: `(if true 1 2)` with no type hint. -/
theorem c4_if_lowering_witness :
    visit1 3 (.tup false [.sym "if", .bool true, .num 1, .num 2]) false
      Option.none initSt =
      .ok (.slot 0,
        [.bind (.slot 0) Option.none,
         .branch (.const ⟨"boolean", .bool true⟩) 0,
         .move 0 (.const ⟨"long", .int 1⟩),
         .jump 1, .label 0,
         .move 0 (.const ⟨"long", .int 2⟩),
         .label 1],
        ⟨[Option.none], [], 2, Option.none⟩) := by
  have h := (c4_if_lowering 2 (.bool true) (.num 1) (.num 2) false Option.none
      initSt ⟨[], [], 2, Option.none⟩ ⟨[Option.none], [], 2, Option.none⟩
      ⟨[Option.none], [], 2, Option.none⟩
      (.const ⟨"boolean", .bool true⟩) (.const ⟨"long", .int 1⟩)
      (.const ⟨"long", .int 2⟩) [] [] [] rfl rfl rfl).1
  simpa using h

/-- Helper: a `FoldTrace` chains by the left operand: the first triple's
left operand is the incoming accumulator, and every later triple's left
operand is the previous triple's destination. -/
theorem foldTrace_chain {opcode : String} :
    ∀ {acc : Operand} {code : List Instr}
      {triples : List (Operand × Operand × Operand)} {fin : Operand},
      FoldTrace opcode acc code triples fin →
      (∀ t0, triples[0]? = some t0 → t0.2.1 = acc) ∧
      (∀ k, k + 1 < triples.length →
        (triples[k + 1]?).map (fun t => t.2.1) =
          ((triples[k]?).map (fun t => t.1))) := by
  intro acc code triples fin h
  induction h with
  | nil =>
    refine ⟨fun t0 ht => ?_, fun k hk => ?_⟩
    · simp at ht
    · simp at hk
  | step acc argCode dst right rest triples fin hrest ih =>
    refine ⟨fun t0 ht => ?_, fun k hk => ?_⟩
    · rw [List.getElem?_cons_zero] at ht
      rw [← Option.some.inj ht]
    · cases k with
      | zero =>
        simp only [List.getElem?_cons_succ, List.getElem?_cons_zero]
        have hlen : 0 < triples.length := by
          simp only [List.length_cons] at hk
          omega
        rw [List.getElem?_eq_getElem hlen]
        simp [ih.1 (triples[0]) (List.getElem?_eq_getElem hlen)]
      | succ n =>
        simp only [List.getElem?_cons_succ]
        refine ih.2 n ?_
        simp only [List.length_cons] at hk
        omega

/-- Helper: any successful run of the `do-binop` loop whose incoming
accumulator is truthy has the `FoldTrace` shape, with exactly one arithmetic
instruction (one triple) per argument — for ARBITRARY argument forms and any
visitor, since each argument's own instructions are absorbed into the
trace's `argCode` segments. -/
theorem doBinopGo_foldTrace {visit : VisitorF} {opcode : String}
    {th : Option String} :
    ∀ {args : List Form} {acc : Operand} {s : St} {fin : Operand}
      {code : List Instr} {s2 : St},
      doBinopGo visit opcode th args acc s = .ok (fin, code, s2) →
      acc.truthy = true →
      ∃ triples, FoldTrace opcode acc code triples fin ∧
        triples.length = args.length := by
  intro args
  induction args with
  | nil =>
    intro acc s fin code s2 h ht
    simp only [doBinopGo, ht, if_true, Except.ok.injEq, Prod.mk.injEq] at h
    refine ⟨[], ?_, rfl⟩
    rw [← h.1, ← h.2.1]
    exact FoldTrace.nil acc
  | cons a rest ih =>
    intro acc s fin code s2 h ht
    simp only [doBinopGo] at h
    split at h
    next e heq => exact absurd h (by simp)
    next right c1 s1 heq =>
      rw [if_pos ht] at h
      split at h
      next e2 heq2 => exact absurd h (by simp)
      next fin2 c2 s3 heq2 =>
        simp only [Except.ok.injEq, Prod.mk.injEq] at h
        obtain ⟨hfin, hcode, hs⟩ := h
        obtain ⟨triples, tr, hlen⟩ := ih heq2 rfl
        refine ⟨(.slot (getSlot Option.none s1).1, acc, right) :: triples,
          ?_, by simp [hlen]⟩
        rw [← hcode, ← hfin]
        exact FoldTrace.step acc c1 (getSlot Option.none s1).1 right c2
          triples fin2 tr

/-- Helper: `do-binop` on any argument list whose first argument compiles to
a truthy operand: the emitted code is the first argument's code followed by
a `FoldTrace` seeded with its operand, one triple per remaining argument. -/
theorem doBinop_foldTrace {visit : VisitorF} {opcode : String}
    {th : Option String} {a0 : Form} {args : List Form} {s : St}
    {o1 : Operand} {c1 : List Instr} {s1 : St} {fin : Operand}
    {code : List Instr} {s2 : St}
    (h1 : visit a0 false th s = .ok (o1, c1, s1)) (htr : o1.truthy = true)
    (hrun : doBinop visit opcode (a0 :: args) th s = .ok (fin, code, s2)) :
    ∃ code2 triples, code = c1 ++ code2 ∧
      FoldTrace opcode o1 code2 triples fin ∧
      triples.length = args.length := by
  simp only [doBinop, doBinopGo, h1, Operand.truthy, Bool.false_eq_true,
    if_false] at hrun
  split at hrun
  next e heq => exact absurd hrun (by simp)
  next fin2 c2 s3 heq =>
    simp only [Except.ok.injEq, Prod.mk.injEq] at hrun
    obtain ⟨hfin, hcode, hs⟩ := hrun
    obtain ⟨triples, tr, hlen⟩ := doBinopGo_foldTrace heq htr
    exact ⟨c2, triples, hcode.symm, hfin ▸ tr, hlen⟩

/-- C2 (amended): for every n-ary arithmetic fold (`+ - * / << >>`) over
n ≥ 2 ARBITRARY argument forms whose first argument compiles to a value
(a truthy operand — the seed of the fold), the emitted stream is the first
argument's instructions followed by one `FoldTrace` step per remaining
argument: each step consists of that argument's own instructions, a `bind`
of a fresh slot to the fixed default type `int`, and exactly ONE binary
arithmetic instruction — so the fold emits exactly n−1 of them — and the
destination slot of fold step k appears as the LEFT operand of the
instruction of step k+1 (the right operand is the newly compiled argument).
The original claim placed the accumulator in the right operand, which the
counterexample above refutes. -/
theorem c2_fold_left_operand_chain (aSym opcode : String)
    (hop : (aSym, opcode) ∈ arithOps) (fuel : Nat) (a0 : Form)
    (args : List Form) (nr : Bool) (th : Option String) (s : St)
    (o1 : Operand) (c1 : List Instr) (s1 : St) (fin : Operand)
    (code : List Instr) (s2 : St)
    (h1 : visit1 fuel a0 false th s = .ok (o1, c1, s1))
    (htr : o1.truthy = true)
    (hrun : visit1 (fuel + 1) (.tup false (.sym aSym :: a0 :: args)) nr th s =
      .ok (fin, code, s2)) :
    ∃ code2 triples,
      code = c1 ++ code2
      ∧ FoldTrace opcode o1 code2 triples fin
      ∧ triples.length = args.length
      ∧ (∀ t0, triples[0]? = some t0 → t0.2.1 = o1)
      ∧ (∀ k, k + 1 < triples.length →
          (triples[k + 1]?).map (fun t => t.2.1) =
            ((triples[k]?).map (fun t => t.1))) := by
  simp only [arithOps, List.mem_cons, List.not_mem_nil, or_false] at hop
  rcases hop with h6 | h6 | h6 | h6 | h6 | h6 <;>
    (rw [Prod.mk.injEq] at h6; obtain ⟨rfl, rfl⟩ := h6) <;>
    exact match doBinop_foldTrace h1 htr hrun with
      | ⟨code2, triples, hc, tr, hlen⟩ =>
        ⟨code2, triples, hc, tr, hlen, (foldTrace_chain tr).1,
          (foldTrace_chain tr).2⟩

/-- Witness for C2 (amended): `(* 1 num num)` (the spec's scenario) with
`num` a bound variable: the seed is the constant 1, and the fold emits two
multiply instructions, the second reading slot 1 (the first step's
destination) as its left operand. -/
theorem c2_fold_left_operand_chain_witness :
    ∃ code2 triples,
      ([Instr.bind (.slot 1) (some "int"),
        .op3 "multiply" (.slot 1) (.const ⟨"long", .int 1⟩) (.slot 0),
        .bind (.slot 2) (some "int"),
        .op3 "multiply" (.slot 2) (.slot 1) (.slot 0)] : List Instr) =
        [] ++ code2
      ∧ FoldTrace "multiply" (.const ⟨"long", .int 1⟩) code2 triples (.slot 2)
      ∧ triples.length = 2 := by
  have h := c2_fold_left_operand_chain "*" "multiply" (by decide) 1 (.num 1)
    [.sym "num", .sym "num"] false Option.none
    ⟨[some "num"], [("num", 0)], 0, Option.none⟩
    (.const ⟨"long", .int 1⟩) [] ⟨[some "num"], [("num", 0)], 0, Option.none⟩
    (.slot 2)
    [.bind (.slot 1) (some "int"),
     .op3 "multiply" (.slot 1) (.const ⟨"long", .int 1⟩) (.slot 0),
     .bind (.slot 2) (some "int"),
     .op3 "multiply" (.slot 2) (.slot 1) (.slot 0)]
    ⟨[some "num", Option.none, Option.none], [("num", 0)], 0, Option.none⟩
    rfl rfl rfl
  obtain ⟨code2, triples, hc, tr, hlen, -, -⟩ := h
  exact ⟨code2, triples, hc, tr, hlen⟩

/-- Helper: one `get-slot` call is a registry step chain. -/
theorem regChain_alloc (nm : Option String) (s : St) :
    RegChain s (getSlot nm s).2 :=
  Relation.ReflTransGen.single (RegStep.alloc nm s)

/-- Helper: one `gensym` call is a registry step chain. -/
theorem regChain_fresh (s : St) : RegChain s (gensym s).2 :=
  Relation.ReflTransGen.single (RegStep.fresh s)

/-- Helper: `visitSeq` only transforms the state along `getSlot`/`gensym`
steps. -/
theorem visitSeq_chain {visit : VisitorF} (hv : VisitChain visit) :
    ∀ {l : List Form} {s : St} {c : List Instr} {s2 : St},
      visitSeq visit l s = .ok (c, s2) → RegChain s s2 := by
  intro l
  induction l with
  | nil =>
    intro s c s2 h
    simp only [visitSeq, Except.ok.injEq, Prod.mk.injEq] at h
    exact h.2 ▸ Relation.ReflTransGen.refl
  | cons a rest ih =>
    intro s c s2 h
    simp only [visitSeq] at h
    split at h
    next e heq => exact absurd h (by simp)
    next o1 c1 s1 heq =>
      split at h
      next e2 heq2 => exact absurd h (by simp)
      next c2 s2b heq2 =>
        simp only [Except.ok.injEq, Prod.mk.injEq] at h
        exact Relation.ReflTransGen.trans
          (hv a true Option.none s o1 c1 s1 heq) (h.2 ▸ ih heq2)

/-- Helper: `visitArgs` only transforms the state along `getSlot`/`gensym`
steps. -/
theorem visitArgs_chain {visit : VisitorF} (hv : VisitChain visit) :
    ∀ {l : List Form} {s : St} {os : List Operand} {c : List Instr} {s2 : St},
      visitArgs visit l s = .ok (os, c, s2) → RegChain s s2 := by
  intro l
  induction l with
  | nil =>
    intro s os c s2 h
    simp only [visitArgs, Except.ok.injEq, Prod.mk.injEq] at h
    exact h.2.2 ▸ Relation.ReflTransGen.refl
  | cons a rest ih =>
    intro s os c s2 h
    simp only [visitArgs] at h
    split at h
    next e heq => exact absurd h (by simp)
    next o1 c1 s1 heq =>
      split at h
      next e2 heq2 => exact absurd h (by simp)
      next os2 c2 s2b heq2 =>
        simp only [Except.ok.injEq, Prod.mk.injEq] at h
        exact Relation.ReflTransGen.trans
          (hv a false Option.none s o1 c1 s1 heq) (h.2.2 ▸ ih heq2)

/-- Helper: the `do-binop` fold loop only transforms the state along
`getSlot`/`gensym` steps. -/
theorem doBinopGo_chain {visit : VisitorF} (hv : VisitChain visit)
    {opcode : String} {th : Option String} :
    ∀ {args : List Form} {acc : Operand} {s : St} {o : Operand}
      {c : List Instr} {s2 : St},
      doBinopGo visit opcode th args acc s = .ok (o, c, s2) → RegChain s s2 := by
  intro args
  induction args with
  | nil =>
    intro acc s o c s2 h
    simp only [doBinopGo] at h
    split at h
    · simp only [Except.ok.injEq, Prod.mk.injEq] at h
      exact h.2.2 ▸ Relation.ReflTransGen.refl
    · exact absurd h (by simp)
  | cons a rest ih =>
    intro acc s o c s2 h
    simp only [doBinopGo] at h
    split at h
    next e heq => exact absurd h (by simp)
    next right c1 s1 heq =>
      have step1 : RegChain s s1 := hv a false th s right c1 s1 heq
      split at h
      · split at h
        next e2 heq2 => exact absurd h (by simp)
        next fin c2 s3 heq2 =>
          simp only [Except.ok.injEq, Prod.mk.injEq] at h
          refine Relation.ReflTransGen.trans step1
            (Relation.ReflTransGen.trans
              (regChain_alloc Option.none s1) (h.2.2 ▸ ih heq2))
      · split at h
        next e2 heq2 => exact absurd h (by simp)
        next fin c2 s3 heq2 =>
          simp only [Except.ok.injEq, Prod.mk.injEq] at h
          exact Relation.ReflTransGen.trans step1 (h.2.2 ▸ ih heq2)

/-- Helper: `do-binop` only transforms the state along `getSlot`/`gensym`
steps. -/
theorem doBinop_chain {visit : VisitorF} (hv : VisitChain visit)
    {opcode : String} {args : List Form} {th : Option String} {s : St}
    {o : Operand} {c : List Instr} {s2 : St}
    (h : doBinop visit opcode args th s = .ok (o, c, s2)) : RegChain s s2 := by
  simp only [doBinop] at h
  exact doBinopGo_chain hv h

/-- Helper: the `do-comp` loop only transforms the state along
`getSlot`/`gensym` steps. -/
theorem doCompGo_chain {visit : VisitorF} (hv : VisitChain visit)
    {opcode : String} {resultSlot : Nat} {tempOp : Operand} :
    ∀ {args : List Form} {left : Operand} {fc : Bool} {s : St}
      {c : List Instr} {s2 : St},
      doCompGo visit opcode resultSlot tempOp args left fc s = .ok (c, s2) →
      RegChain s s2 := by
  intro args
  induction args with
  | nil =>
    intro left fc s c s2 h
    simp only [doCompGo, Except.ok.injEq, Prod.mk.injEq] at h
    exact h.2 ▸ Relation.ReflTransGen.refl
  | cons a rest ih =>
    intro left fc s c s2 h
    simp only [doCompGo] at h
    split at h
    next e heq => exact absurd h (by simp)
    next right c1 s1 heq =>
      split at h
      next e2 heq2 => exact absurd h (by simp)
      next c2 s2b heq2 =>
        simp only [Except.ok.injEq, Prod.mk.injEq] at h
        exact Relation.ReflTransGen.trans
          (hv a false Option.none s right c1 s1 heq) (h.2 ▸ ih heq2)

/-- Helper: `do-comp` only transforms the state along `getSlot`/`gensym`
steps. -/
theorem doComp_chain {visit : VisitorF} (hv : VisitChain visit)
    {opcode : String} {args : List Form} {s : St} {o : Operand}
    {c : List Instr} {s2 : St}
    (h : doComp visit opcode args s = .ok (o, c, s2)) : RegChain s s2 := by
  simp only [doComp] at h
  split at h
  next e heq => exact absurd h (by simp)
  next c1 s1 heq =>
    simp only [Except.ok.injEq, Prod.mk.injEq] at h
    have hrec := doCompGo_chain hv heq
    split at hrec
    · exact Relation.ReflTransGen.trans
        (Relation.ReflTransGen.trans (regChain_alloc Option.none s)
          (regChain_alloc Option.none (getSlot Option.none s).2))
        (h.2.2 ▸ hrec)
    · exact Relation.ReflTransGen.trans
        (regChain_alloc Option.none s) (h.2.2 ▸ hrec)

/-- Helper: the `the` lowering only transforms the state along
`getSlot`/`gensym` steps. -/
theorem doThe_chain {visit : VisitorF} (hv : VisitChain visit)
    {args : List Form} {s : St} {o : Operand} {c : List Instr} {s2 : St}
    (h : doThe visit args s = .ok (o, c, s2)) : RegChain s s2 := by
  simp only [doThe] at h
  split at h
  all_goals try (simp at h; done)
  split at h
  all_goals try (simp at h; done)
  split at h
  all_goals try (simp at h; done)
  rename_i result c1 s1 heq
  have step : RegChain s s1 := hv _ _ _ _ _ _ _ heq
  split at h
  · split at h
    · simp only [Except.ok.injEq, Prod.mk.injEq] at h
      exact h.2.2 ▸ step
    · exact absurd h (by simp)
  · simp only [Except.ok.injEq, Prod.mk.injEq] at h
    exact h.2.2 ▸ step

/-- Helper: the `def`/`var` lowering only transforms the state along
`getSlot`/`gensym` steps. -/
theorem doDefVar_chain {visit : VisitorF} (hv : VisitChain visit)
    {args : List Form} {s : St} {o : Operand} {c : List Instr} {s2 : St}
    (h : doDefVar visit args s = .ok (o, c, s2)) : RegChain s s2 := by
  simp only [doDefVar] at h
  split at h
  all_goals try (simp at h; done)
  split at h
  all_goals try (simp at h; done)
  split at h
  all_goals try (simp at h; done)
  rename_i result c1 s1 heq
  simp only [Except.ok.injEq, Prod.mk.injEq] at h
  exact h.2.2 ▸ Relation.ReflTransGen.trans
    (hv _ _ _ _ _ _ _ heq) (regChain_alloc _ s1)

/-- Helper: the `set` lowering only transforms the state along
`getSlot`/`gensym` steps. -/
theorem doSet_chain {visit : VisitorF} (hv : VisitChain visit)
    {args : List Form} {s : St} {o : Operand} {c : List Instr} {s2 : St}
    (h : doSet visit args s = .ok (o, c, s2)) : RegChain s s2 := by
  simp only [doSet] at h
  split at h
  all_goals try (simp at h; done)
  split at h
  all_goals try (simp at h; done)
  rename_i result c1 s1 heq
  split at h
  all_goals try (simp at h; done)
  split at h
  all_goals try (simp at h; done)
  simp only [Except.ok.injEq, Prod.mk.injEq] at h
  exact h.2.2 ▸ hv _ _ _ _ _ _ _ heq

/-- Helper: the `return` lowering only transforms the state along
`getSlot`/`gensym` steps. -/
theorem doReturn_chain {visit : VisitorF} (hv : VisitChain visit)
    {args : List Form} {s : St} {o : Operand} {c : List Instr} {s2 : St}
    (h : doReturn visit args s = .ok (o, c, s2)) : RegChain s s2 := by
  simp only [doReturn] at h
  split at h
  · simp only [Except.ok.injEq, Prod.mk.injEq] at h
    exact h.2.2 ▸ Relation.ReflTransGen.refl
  · split at h
    next e heq => exact absurd h (by simp)
    next v c1 s1 heq =>
      simp only [Except.ok.injEq, Prod.mk.injEq] at h
      exact h.2.2 ▸ hv _ _ _ _ _ _ _ heq
  · exact absurd h (by simp)

/-- Helper: the `do` lowering only transforms the state along
`getSlot`/`gensym` steps. -/
theorem doDo_chain {visit : VisitorF} (hv : VisitChain visit)
    {th : Option String} {args : List Form} {s : St} {o : Operand}
    {c : List Instr} {s2 : St}
    (h : doDo visit th args s = .ok (o, c, s2)) : RegChain s s2 := by
  simp only [doDo] at h
  split at h
  · exact absurd h (by simp)
  · split at h
    next e heq => exact absurd h (by simp)
    next c1 s1 heq =>
      split at h
      next e2 heq2 => exact absurd h (by simp)
      next v c2 s2b heq2 =>
        simp only [Except.ok.injEq, Prod.mk.injEq] at h
        exact h.2.2 ▸ Relation.ReflTransGen.trans
          (visitSeq_chain hv heq) (hv _ _ _ _ _ _ _ heq2)

/-- Helper: the `while` lowering only transforms the state along
`getSlot`/`gensym` steps. -/
theorem doWhile_chain {visit : VisitorF} (hv : VisitChain visit)
    {args : List Form} {s : St} {o : Operand} {c : List Instr} {s2 : St}
    (h : doWhile visit args s = .ok (o, c, s2)) : RegChain s s2 := by
  simp only [doWhile] at h
  split at h
  · exact absurd h (by simp)
  · split at h
    · exact absurd h (by simp)
    · split at h
      next e heq => exact absurd h (by simp)
      next condSlot c1 s1 heq =>
        split at h
        next e2 heq2 => exact absurd h (by simp)
        next c2 s2b heq2 =>
          simp only [Except.ok.injEq, Prod.mk.injEq] at h
          refine h.2.2 ▸ Relation.ReflTransGen.trans
            (Relation.ReflTransGen.trans (regChain_fresh s) (regChain_fresh _))
            (Relation.ReflTransGen.trans (hv _ _ _ _ _ _ _ heq)
              (visitSeq_chain hv heq2))

/-- Helper: the `if` lowering only transforms the state along
`getSlot`/`gensym` steps. -/
theorem doIf_chain {visit : VisitorF} (hv : VisitChain visit)
    {th : Option String} {args : List Form} {s : St} {o : Operand}
    {c : List Instr} {s2 : St}
    (h : doIf visit th args s = .ok (o, c, s2)) : RegChain s s2 := by
  simp only [doIf] at h
  split at h
  all_goals try (simp at h; done)
  split at h
  all_goals try (simp at h; done)
  rename_i condSlot c1 s1 heq
  split at h
  all_goals try (simp at h; done)
  rename_i v1 c2 s2b heq2
  split at h
  all_goals try (simp at h; done)
  rename_i v2 c3 s3 heq3
  simp only [Except.ok.injEq, Prod.mk.injEq] at h
  refine h.2.2 ▸ Relation.ReflTransGen.trans
    (Relation.ReflTransGen.trans (regChain_fresh s) (regChain_fresh _))
    (Relation.ReflTransGen.trans (hv _ _ _ _ _ _ _ heq)
      (Relation.ReflTransGen.trans (regChain_alloc Option.none s1)
        (Relation.ReflTransGen.trans (hv _ _ _ _ _ _ _ heq2)
          (hv _ _ _ _ _ _ _ heq3))))

/-- Helper: the `syscall`/call lowering only transforms the state along
`getSlot`/`gensym` steps. -/
theorem doCallLike_chain {visit : VisitorF} (hv : VisitChain visit)
    {nrFlag : Bool} {callee : Option Form} {args : List Form} {s : St}
    {o : Operand} {c : List Instr} {s2 : St}
    (h : doCallLike visit nrFlag callee args s = .ok (o, c, s2)) :
    RegChain s s2 := by
  simp only [doCallLike] at h
  split at h
  next e heq => exact absurd h (by simp)
  next os c1 s1 heq =>
    simp only [Except.ok.injEq, Prod.mk.injEq] at h
    split at heq
    · exact h.2.2 ▸ visitArgs_chain hv heq
    · exact h.2.2 ▸ Relation.ReflTransGen.trans
        (regChain_alloc Option.none s) (visitArgs_chain hv heq)

set_option maxHeartbeats 2000000 in
/-- Helper: the symbol-head dispatch only transforms the state along
`getSlot`/`gensym` steps. -/
theorem dispatchOp_chain {visit : VisitorF} (hv : VisitChain visit)
    {str : String} {args : List Form} {nrFlag : Bool} {th : Option String}
    {s : St} {o : Operand} {c : List Instr} {s2 : St}
    (h : dispatchOp visit str args nrFlag th s = .ok (o, c, s2)) :
    RegChain s s2 := by
  unfold dispatchOp at h
  by_cases hc0 : str = "+"
  · rw [if_pos hc0] at h
    exact doBinop_chain hv h
  rw [if_neg hc0] at h
  by_cases hc1 : str = "-"
  · rw [if_pos hc1] at h
    exact doBinop_chain hv h
  rw [if_neg hc1] at h
  by_cases hc2 : str = "*"
  · rw [if_pos hc2] at h
    exact doBinop_chain hv h
  rw [if_neg hc2] at h
  by_cases hc3 : str = "/"
  · rw [if_pos hc3] at h
    exact doBinop_chain hv h
  rw [if_neg hc3] at h
  by_cases hc4 : str = "<<"
  · rw [if_pos hc4] at h
    exact doBinop_chain hv h
  rw [if_neg hc4] at h
  by_cases hc5 : str = ">>"
  · rw [if_pos hc5] at h
    exact doBinop_chain hv h
  rw [if_neg hc5] at h
  by_cases hc6 : str = "="
  · rw [if_pos hc6] at h
    exact doComp_chain hv h
  rw [if_neg hc6] at h
  by_cases hc7 : str = "not="
  · rw [if_pos hc7] at h
    exact doComp_chain hv h
  rw [if_neg hc7] at h
  by_cases hc8 : str = "<"
  · rw [if_pos hc8] at h
    exact doComp_chain hv h
  rw [if_neg hc8] at h
  by_cases hc9 : str = "<="
  · rw [if_pos hc9] at h
    exact doComp_chain hv h
  rw [if_neg hc9] at h
  by_cases hc10 : str = ">"
  · rw [if_pos hc10] at h
    exact doComp_chain hv h
  rw [if_neg hc10] at h
  by_cases hc11 : str = ">="
  · rw [if_pos hc11] at h
    exact doComp_chain hv h
  rw [if_neg hc11] at h
  by_cases hc12 : str = "the"
  · rw [if_pos hc12] at h
    exact doThe_chain hv h
  rw [if_neg hc12] at h
  by_cases hc13 : str = "def"
  · rw [if_pos hc13] at h
    exact doDefVar_chain hv h
  rw [if_neg hc13] at h
  by_cases hc14 : str = "var"
  · rw [if_pos hc14] at h
    exact doDefVar_chain hv h
  rw [if_neg hc14] at h
  by_cases hc15 : str = "set"
  · rw [if_pos hc15] at h
    exact doSet_chain hv h
  rw [if_neg hc15] at h
  by_cases hc16 : str = "return"
  · rw [if_pos hc16] at h
    exact doReturn_chain hv h
  rw [if_neg hc16] at h
  by_cases hc17 : str = "do"
  · rw [if_pos hc17] at h
    exact doDo_chain hv h
  rw [if_neg hc17] at h
  by_cases hc18 : str = "while"
  · rw [if_pos hc18] at h
    exact doWhile_chain hv h
  rw [if_neg hc18] at h
  by_cases hc19 : str = "if"
  · rw [if_pos hc19] at h
    exact doIf_chain hv h
  rw [if_neg hc19] at h
  by_cases hc20 : str = "ir"
  · rw [if_pos hc20] at h
    simp only [Except.ok.injEq, Prod.mk.injEq] at h
    exact h.2.2 ▸ Relation.ReflTransGen.refl
  rw [if_neg hc20] at h
  by_cases hc21 : str = "syscall"
  · rw [if_pos hc21] at h
    exact doCallLike_chain hv h
  rw [if_neg hc21] at h
  exact doCallLike_chain hv h

set_option maxHeartbeats 2000000 in
/-- Helper: `visit1` only transforms the state along `getSlot`/`gensym`
steps: every state reached during the compilation of forms is connected to
the starting state by a chain of slot allocations and label generations. -/
theorem visit1_chain : ∀ fuel, VisitChain (visit1 fuel) := by
  intro fuel
  induction fuel with
  | zero =>
    intro a nr th s o c s2 h
    exact absurd h (by simp [visit1])
  | succ fuel ihv =>
    intro code nr th s o c s2 h
    simp only [visit1] at h
    split at h
    all_goals try (simp only [Except.ok.injEq, Prod.mk.injEq] at h)
    all_goals try (exact h.2.2 ▸ Relation.ReflTransGen.refl)
    all_goals try (simp at h; done)
    -- remaining: the named-slot arm and the operator-tuple arm
    all_goals split at h
    all_goals try (simp only [Except.ok.injEq, Prod.mk.injEq] at h)
    all_goals try (exact h.2.2 ▸ Relation.ReflTransGen.refl)
    all_goals try (simp at h; done)
    -- remaining: the symbol-head dispatch and the call fallback for
    -- non-symbol heads
    all_goals first
      | exact dispatchOp_chain ihv h
      | exact doCallLike_chain ihv h

/-- Helper: a run of `get-slot` calls returns the consecutive indices
starting at the current registry size. -/
theorem allocRun_range :
    ∀ (nms : List (Option String)) (s : St),
      (allocRun nms s).1 = List.range' s.slotToName.length nms.length := by
  intro nms
  induction nms with
  | nil => intro s; rfl
  | cons nm rest ih =>
    intro s
    simp only [allocRun, List.length_cons]
    rw [ih]
    simp [getSlot, List.range']

/-- Helper: membership in `range'` bounds from below. -/
theorem mem_range2 : ∀ (n a x : Nat), x ∈ List.range' a n → a ≤ x := by
  intro n
  induction n with
  | zero => intro a x hx; simp [List.range'] at hx
  | succ m ih =>
    intro a x hx
    simp only [List.range'] at hx
    rcases List.mem_cons.mp hx with h0 | hx2
    · exact h0 ▸ Nat.le_refl a
    · exact Nat.le_trans (Nat.le_succ a) (ih (a + 1) x hx2)

/-- Helper: consecutive indices are pairwise strictly increasing. -/
theorem pairwise_lt_range2 : ∀ (n a : Nat),
    (List.range' a n).Pairwise (· < ·) := by
  intro n
  induction n with
  | zero => intro a; simp [List.range']
  | succ m ih =>
    intro a
    simp only [List.range']
    refine List.Pairwise.cons ?_ (ih (a + 1))
    intro x hx
    have := mem_range2 m (a + 1) x hx
    omega

/-- Helper: along any registry step chain the slot registry only grows. -/
theorem regChain_slotLen {s s2 : St} (h : RegChain s s2) :
    s.slotToName.length ≤ s2.slotToName.length := by
  induction h with
  | refl => exact Nat.le_refl _
  | tail hc hs ih =>
    cases hs with
    | alloc nm st =>
      refine Nat.le_trans ih ?_
      simp [getSlot]
    | fresh st => exact ih

/-- C7: slot allocation is strictly monotone within one function.  A run of
`get-slot` calls from any state returns the consecutive indices starting at
the current registry size, so each call returns an index strictly greater
than every previously returned one and indices are unique; after the
registry reset performed at the start of a function definition, the next
index is 0; `gensym` leaves the slot registry untouched; along any
`getSlot`/`gensym` chain the registry only grows; and every successful
`visit1` run moves the state along such a chain, so the property holds at
every point of a function body's compilation. -/
theorem c7_slot_allocation_monotone :
    (∀ (nms : List (Option String)) (s : St),
      (allocRun nms s).1 = List.range' s.slotToName.length nms.length)
    ∧ (∀ (nms : List (Option String)) (s : St),
        ((allocRun nms s).1).Pairwise (· < ·))
    ∧ (∀ (nms : List (Option String)) (s : St),
        (allocRun nms (resetRegs s)).1 = List.range' 0 nms.length)
    ∧ (∀ s : St, (gensym s).2.slotToName = s.slotToName)
    ∧ (∀ s s2 : St, RegChain s s2 →
        s.slotToName.length ≤ s2.slotToName.length)
    ∧ (∀ fuel code nr th (s : St) o c s2,
        visit1 fuel code nr th s = .ok (o, c, s2) → RegChain s s2) := by
  refine ⟨allocRun_range, ?_, ?_, fun s => rfl,
    fun s s2 h => regChain_slotLen h, fun fuel => visit1_chain fuel⟩
  · intro nms s
    rw [allocRun_range]
    exact pairwise_lt_range2 nms.length s.slotToName.length
  · intro nms s
    rw [allocRun_range]
    rfl

/-- Witness for C7: three allocations from the reset state return 0, 1, 2 in
increasing order, and a concrete compilation step yields a registry chain
that does not shrink the registry. -/
theorem c7_slot_allocation_monotone_witness :
    (allocRun [Option.none, some "a", Option.none] (resetRegs initSt)).1 =
      [0, 1, 2]
    ∧ ((allocRun [Option.none, some "a", Option.none]
        (resetRegs initSt)).1).Pairwise (· < ·)
    ∧ initSt.slotToName.length ≤
        ((getSlot Option.none initSt).2).slotToName.length := by
  refine ⟨?_, c7_slot_allocation_monotone.2.1 _ _, ?_⟩
  · rw [c7_slot_allocation_monotone.2.2.1]
    rfl
  · exact c7_slot_allocation_monotone.2.2.2.2.1 initSt _
      (regChain_alloc Option.none initSt)

/-- Helper: indexing into a list extended by one element. -/
theorem getElem?_concat {α : Type} (L : List α) (x : α) (j : Nat) :
    (L ++ [x])[j]? =
      if j < L.length then L[j]? else if j = L.length then some x
      else Option.none := by
  rw [List.getElem?_append]
  rcases Nat.lt_trichotomy j L.length with hlt | heq | hgt
  · rw [if_pos hlt, if_pos hlt]
  · subst heq
    rw [if_neg (Nat.lt_irrefl _), if_neg (Nat.lt_irrefl _), if_pos rfl]
    simp
  · rw [if_neg (by omega), if_neg (by omega), if_neg (by omega),
      List.getElem?_eq_none
        (by simp only [List.length_cons, List.length_nil]; omega)]

/-- Helper: a successful lookup is inside the list. -/
theorem getElem?_some_lt {α : Type} {L : List α} {j : Nat} {v : α}
    (h : L[j]? = some v) : j < L.length := by
  by_contra hn
  rw [List.getElem?_eq_none (Nat.le_of_not_lt hn)] at h
  exact Option.noConfusion h

/-- Helper: the empty registries are coherent. -/
theorem regOk_empty {s : St} (h1 : s.slotToName = []) (h2 : s.nameToSlot = []) :
    RegOk s := by
  constructor
  · intro n i hg
    rw [h2] at hg
    simp [tableGet] at hg
  · intro i n hg
    rw [h1] at hg
    simp at hg

/-- Helper: `get-slot` preserves the registry coherence `RegOk`. -/
theorem regOk_getSlot (nm : Option String) (s : St) (h : RegOk s) :
    RegOk (getSlot nm s).2 := by
  obtain ⟨hf, hb⟩ := h
  constructor
  · intro n i hg
    cases nm with
    | none =>
      simp only [getSlot] at hg ⊢
      obtain ⟨h1, h2⟩ := hf n i hg
      have hi : i < s.slotToName.length := getElem?_some_lt h1
      constructor
      · rw [getElem?_concat, if_pos hi]
        exact h1
      · intro j hj
        rw [getElem?_concat]
        split
        · exact h2 j hj
        · split
          · simp
          · simp
    | some m =>
      simp only [getSlot, tableGet, tablePut] at hg
      simp only [getSlot]
      by_cases hmn : m = n
      · rw [if_pos hmn] at hg
        have hi := Option.some.inj hg
        constructor
        · rw [← hi, getElem?_concat, if_neg (Nat.lt_irrefl _), if_pos rfl, hmn]
        · intro j hj
          rw [← hi] at hj
          rw [getElem?_concat, if_neg (by omega), if_neg (by omega)]
          simp
      · rw [if_neg hmn] at hg
        obtain ⟨h1, h2⟩ := hf n i hg
        have hi : i < s.slotToName.length := getElem?_some_lt h1
        constructor
        · rw [getElem?_concat, if_pos hi]
          exact h1
        · intro j hj
          rw [getElem?_concat]
          split
          · exact h2 j hj
          · split
            · intro hx
              exact hmn (Option.some.inj (Option.some.inj hx))
            · simp
  · intro i n hg
    cases nm with
    | none =>
      simp only [getSlot] at hg ⊢
      rw [getElem?_concat] at hg
      split at hg
      · exact hb i n hg
      · split at hg
        · exact absurd hg (by simp)
        · exact absurd hg (by simp)
    | some m =>
      simp only [getSlot] at hg ⊢
      rw [getElem?_concat] at hg
      split at hg
      next hlt =>
        obtain ⟨j, hj, hij⟩ := hb i n hg
        simp only [tableGet, tablePut]
        by_cases hmn : m = n
        · exact ⟨s.slotToName.length, by rw [if_pos hmn], by omega⟩
        · refine ⟨j, ?_, hij⟩
          rw [if_neg hmn]
          exact hj
      next hlt =>
        split at hg
        next heq =>
          have hmn : m = n := Option.some.inj (Option.some.inj hg)
          simp only [tableGet, tablePut]
          exact ⟨s.slotToName.length, by rw [if_pos hmn], by omega⟩
        next => exact absurd hg (by simp)

/-- Helper: every state reachable from cleared registries by
`getSlot`/`gensym` steps has coherent registries. -/
theorem regOk_of_chain {s0 s : St} (h1 : s0.slotToName = [])
    (h2 : s0.nameToSlot = []) (hc : RegChain s0 s) : RegOk s := by
  induction hc with
  | refl => exact regOk_empty h1 h2
  | tail hchain hstep ih =>
    cases hstep with
    | alloc nm => exact regOk_getSlot nm _ ih
    | fresh => exact ih

/-- C3 counterexample: the claimed two-way inverse fails after a name is
declared twice.  After `get-slot "x"` runs twice from cleared registries (as
two `def`/`var` forms for the same name would do), the reachable state has
`slot-to-name[0] = "x"` while `name-to-slot["x"] = 1 ≠ 0`, so
`slot-to-name[i] = n` does NOT imply `name-to-slot[n] = i`. -/
theorem c3_registry_inverse_counterexample :
    RegChain initSt (getSlot (some "x") (getSlot (some "x") initSt).2).2
    ∧ (getSlot (some "x") (getSlot (some "x") initSt).2).2.slotToName[0]? =
        some (some "x")
    ∧ tableGet
        (getSlot (some "x") (getSlot (some "x") initSt).2).2.nameToSlot "x" =
        some 1
    ∧ tableGet
        (getSlot (some "x") (getSlot (some "x") initSt).2).2.nameToSlot "x" ≠
        some 0 := by
  refine ⟨?_, rfl, rfl, by decide⟩
  exact Relation.ReflTransGen.head (RegStep.alloc (some "x") initSt)
    (Relation.ReflTransGen.single
      (RegStep.alloc (some "x") (getSlot (some "x") initSt).2))

/-- C3 (amended): in every registry state reachable from the cleared
registries (every state occurring during the compilation of one function,
since only `get-slot` and `gensym` mutate the state), `name-to-slot` maps a
name `n` to an index `i` exactly when `i` is the GREATEST index at which
`slot-to-name` holds `n`.  In particular `name-to-slot[n] = i` implies
`slot-to-name[i] = n`, and the two tables are mutually inverse as the claim
states whenever no name is declared twice; after a redeclaration the
superseded index still holds the name in `slot-to-name`, refuting the
claimed equivalence (see the counterexample). -/
theorem c3_registry_greatest_index (s0 s : St) (h1 : s0.slotToName = [])
    (h2 : s0.nameToSlot = []) (hc : RegChain s0 s) (n : String) (i : Nat) :
    tableGet s.nameToSlot n = some i ↔
      (s.slotToName[i]? = some (some n) ∧
        ∀ j, i < j → s.slotToName[j]? ≠ some (some n)) := by
  have hok := regOk_of_chain h1 h2 hc
  constructor
  · exact fun hg => hok.1 n i hg
  · rintro ⟨hi, hmax⟩
    obtain ⟨j, hj, hij⟩ := hok.2 i n hi
    rcases Nat.lt_or_ge j (i + 1) with hlt | hge
    · have : j = i := by omega
      exact this ▸ hj
    · exact absurd (hok.1 n j hj).1 (hmax j (by omega))

/-- Witness for C3 (amended): after a single `get-slot "x"` from cleared
registries, the table maps "x" to 0, derived through the equivalence. -/
theorem c3_registry_greatest_index_witness :
    tableGet (getSlot (some "x") initSt).2.nameToSlot "x" = some 0 := by
  have h := c3_registry_greatest_index initSt (getSlot (some "x") initSt).2
    rfl rfl (Relation.ReflTransGen.single (RegStep.alloc (some "x") initSt))
    "x" 0
  refine h.mpr ⟨rfl, ?_⟩
  intro j hj
  rw [List.getElem?_eq_none
    (show ((getSlot (some "x") initSt).2.slotToName).length ≤ j by
      simp [getSlot, initSt]
      omega)]
  simp

end SysirFrontend
